import Mathlib

/-!
Shallow embedding of the extractive-summarization engine of this repository
(`backend_api.py` and `video_summarizer_api.py`).

Modelling conventions:
* A sentence is represented by its list of lower-cased word tokens (the result
  of `word_tokenize(sentence.lower())` in the source); the token type is a
  parameter `α` with decidable equality.
* Python floats are modelled by exact rational arithmetic (`ℚ`); `int(x)` on a
  non-negative value is the floor, hence truncating natural-number division for
  products with fixed decimal constants.
* `numpy` vectors are lists; the `nltk.cluster.util.cosine_distance` kernel
  divides by a product of Euclidean norms, modelled with `Real.sqrt`.
* The `sklearn` TF-IDF vectorizer of the topic segmenter is an external
  library; `detect_topic_changes` is parameterized by a similarity oracle
  `sim`, with `Option` modelling its `try/except` guard.
-/

/-- Jaccard similarity over word sets, `|intersection| / |union|`, the metric
named by the specification for the redundancy check (`ℚ` division, so the
value is `0` when both sets are empty). -/
def jaccardSim {α : Type} [DecidableEq α] (s1 s2 : List α) : ℚ :=
  ((s1.toFinset ∩ s2.toFinset).card : ℚ) / ((s1.toFinset ∪ s2.toFinset).card : ℚ)

/-- `are_sentences_similar` (backend_api.py, lines 294-306): word-set overlap
test between two tokenized sentences against a threshold. -/
def are_sentences_similar {α : Type} [DecidableEq α]
    (sent1 sent2 : List α) (threshold : ℚ) : Bool :=
  let words1 := sent1.toFinset
  let words2 := sent2.toFinset
  if words1.card = 0 ∨ words2.card = 0 then false
  else
    let intersection := (words1 ∩ words2).card
    let union := (words1 ∪ words2).card
    let similarity : ℚ := if 0 < union then (intersection : ℚ) / (union : ℚ) else 0
    decide (threshold < similarity)

/-- The redundancy test of the strict selection pass of `textrank_summarize`
(backend_api.py, lines 374-379): a candidate is redundant when it is similar,
at threshold `0.5`, to some already-selected sentence. -/
def isRedundant {α : Type} [DecidableEq α]
    (sent : List α) (sents : List (List α)) (sel : List ℕ) : Bool :=
  sel.any fun j => are_sentences_similar sent (sents.getD j []) (1/2)

/-- `ranked_items` of `textrank_summarize` (line 365): candidate indices sorted
by score descending; Python's `sorted` is stable, so ties keep original order. -/
def rankedIndices (scores : List ℚ) : List ℕ :=
  (((List.range scores.length).zip scores).mergeSort fun a b => decide (b.2 ≤ a.2)).map Prod.fst

/-- Strict selection pass of `textrank_summarize` (lines 367-383): walk the
ranked list, stop at `target`, skip redundant candidates, append the rest. -/
def strictPass {α : Type} [DecidableEq α] (sents : List (List α)) (target : ℕ) :
    List ℕ → List ℕ → List ℕ
  | [], sel => sel
  | idx :: rest, sel =>
    if target ≤ sel.length then sel
    else if isRedundant (sents.getD idx []) sents sel then strictPass sents target rest sel
    else strictPass sents target rest (sel ++ [idx])

/-- Backfill pass of `textrank_summarize` (lines 386-392): walk the ranked list
again, adding any not-yet-selected index regardless of redundancy, until the
target is met or candidates are exhausted. -/
def backfillPass (target : ℕ) : List ℕ → List ℕ → List ℕ
  | [], sel => sel
  | idx :: rest, sel =>
    if target ≤ sel.length then sel
    else if idx ∈ sel then backfillPass target rest sel
    else backfillPass target rest (sel ++ [idx])

/-- Selection phase of `textrank_summarize` (lines 360-396): strict pass, then
backfill, then re-sort the chosen indices into original document order. -/
def selectionIndices {α : Type} [DecidableEq α]
    (sents : List (List α)) (scores : List ℚ) (target : ℕ) : List ℕ :=
  (backfillPass target (rankedIndices scores)
      (strictPass sents target (rankedIndices scores) [])).mergeSort fun a b => decide (a ≤ b)

/-- `textrank_summarize` from its early-return branch onward (lines 350-398),
as a function of the filtered candidate sentences, their scores and the target
length: if the filtered candidates already fit the target they are returned
verbatim, otherwise the ranked redundancy-aware selection runs. -/
def textrank_select {α : Type} [DecidableEq α]
    (sents : List (List α)) (scores : List ℚ) (target : ℕ) : List (List α) :=
  if sents.length ≤ target then sents
  else (selectionIndices sents scores target).map fun i => sents.getD i []

/-- `calculate_optimal_summary_length` (backend_api.py, lines 77-121) as a
function of the word count and sentence count of the text; `int(x)` on the
non-negative products with `0.7, 0.5, 0.35, 0.25, 0.18, 0.8, 1.2` is floor,
i.e. truncating natural division. -/
def calculate_optimal_summary_length (num_words num_sentences : ℕ) : ℕ :=
  let avg_sentence_length : ℚ :=
    if 0 < num_sentences then (num_words : ℚ) / (num_sentences : ℚ) else 0
  let t1 : ℕ :=
    if num_words < 100 then max 2 (7 * num_sentences / 10)
    else if num_words < 300 then max 2 (num_sentences / 2)
    else if num_words < 800 then max 3 (7 * num_sentences / 20)
    else if num_words < 2000 then max 4 (num_sentences / 4)
    else max 5 (9 * num_sentences / 50)
  let t2 : ℕ :=
    if 25 < avg_sentence_length then max 2 (4 * t1 / 5)
    else if avg_sentence_length < 10 then 6 * t1 / 5
    else t1
  min (max 2 (min t2 12)) num_sentences

/-- The length estimator as described by the words of the specification and of
the claim (bracket by word count, adjust by average sentence length, clamp to
`[2, 12]`, cap at the sentence count), for comparison with
`calculate_optimal_summary_length`. -/
def optimal_length_spec (num_words num_sentences : ℕ) : ℕ :=
  let bracket : ℕ :=
    if num_words < 100 then max 2 (7 * num_sentences / 10)
    else if num_words < 300 then max 2 (num_sentences / 2)
    else if num_words < 800 then max 3 (7 * num_sentences / 20)
    else if num_words < 2000 then max 4 (num_sentences / 4)
    else max 5 (9 * num_sentences / 50)
  let adjusted : ℕ :=
    if 0 < num_sentences ∧ 25 * num_sentences < num_words then 4 * bracket / 5
    else if num_sentences = 0 ∨ num_words < 10 * num_sentences then 6 * bracket / 5
    else bracket
  min (max 2 (min adjusted 12)) num_sentences

/-- Position sub-score of `calculate_sentence_importance` (backend_api.py,
lines 182-195): the value stored in `position_scores[i]` for a document of
`n_sentences` sentences. -/
def position_scores (n_sentences i : ℕ) : ℚ :=
  if i = 0 then 3
  else if i = 1 then 2
  else if (i : ℚ) < min 5 ((n_sentences : ℚ) * (1/10)) then 3/2
  else if (n_sentences : ℤ) - 1 ≤ (i : ℤ) then 9/5
  else if (n_sentences : ℤ) - 3 ≤ (i : ℤ) then 13/10
  else 1

/-- Dot product of two term-frequency vectors. -/
def dotN (u v : List ℕ) : ℕ := ((u.zip v).map fun p => p.1 * p.2).sum

/-- `nltk.cluster.util.cosine_distance`: `1 - dot(u,v) / (norm(u) * norm(v))`. -/
noncomputable def cosine_distance (u v : List ℕ) : ℝ :=
  1 - (dotN u v : ℝ) / (Real.sqrt (dotN u u) * Real.sqrt (dotN v v))

/-- Stopword filtering of a tokenized sentence (backend_api.py, lines 128-129). -/
def filtered_words {α : Type} [DecidableEq α] (sent stop_words : List α) : List α :=
  sent.filter fun w => w ∉ stop_words

/-- `all_words = list(set(sent1 + sent2))` (line 131): the union vocabulary. -/
def all_words {α : Type} [DecidableEq α] (s1 s2 : List α) : List α :=
  (s1 ++ s2).dedup

/-- The term-frequency vector of a sentence over a vocabulary (lines 133-141). -/
def tf_vector {α : Type} [DecidableEq α] (vocab sent : List α) : List ℕ :=
  vocab.map fun w => sent.count w

/-- The pair of term-frequency vectors `vector1, vector2` built inside
`sentence_similarity` (backend_api.py, lines 128-141). -/
def simVectors {α : Type} [DecidableEq α] (sent1 sent2 stop_words : List α) :
    List ℕ × List ℕ :=
  let s1 := filtered_words sent1 stop_words
  let s2 := filtered_words sent2 stop_words
  let vocab := all_words s1 s2
  (tf_vector vocab s1, tf_vector vocab s2)

/-- `sentence_similarity` (backend_api.py, lines 123-146). -/
noncomputable def sentence_similarity {α : Type} [DecidableEq α]
    (sent1 sent2 stop_words : List α) : ℝ :=
  let s1 := filtered_words sent1 stop_words
  let s2 := filtered_words sent2 stop_words
  let vocab := all_words s1 s2
  let vector1 := tf_vector vocab s1
  let vector2 := tf_vector vocab s2
  if vector1.sum = 0 ∨ vector2.sum = 0 then 0
  else 1 - cosine_distance vector1 vector2

/-- `build_similarity_matrix` (backend_api.py, lines 148-157): an `N×N` matrix
initialized to zero whose off-diagonal in-range entries are pairwise sentence
similarities. -/
noncomputable def build_similarity_matrix {α : Type} [DecidableEq α]
    (sentences : List (List α)) (stop_words : List α) (i j : ℕ) : ℝ :=
  if i < sentences.length ∧ j < sentences.length ∧ i ≠ j then
    sentence_similarity (sentences.getD i []) (sentences.getD j []) stop_words
  else 0

/-- A timestamped transcript entry (video_summarizer_api.py): its text is kept
as the list of whitespace-separated words, which quotients away exactly the
whitespace normalization performed by `' '.join` and `strip`. -/
structure TranscriptEntry (α : Type) where
  text : List α
  start : ℚ
  duration : ℚ

instance {α : Type} : Inhabited (TranscriptEntry α) := ⟨⟨[], 0, 0⟩⟩

/-- A produced segment (video_summarizer_api.py, lines 138-142); the formatted
timestamp string is derived from `start_seconds` by `format_timestamp`. -/
structure Segment (α : Type) where
  start_seconds : ℚ
  text : List α

/-- Python slice `l[a:b]` for `0 ≤ a, b`. -/
def pySlice {α : Type} (l : List α) (a b : ℕ) : List α :=
  (l.drop a).take (b - a)

/-- The loop of `create_segments_with_topics` (video_summarizer_api.py, lines
132-144), iterating over the remaining boundary indices with the current
`start_idx`: join the texts of the slice, read the start time of the entry at
`start_idx`, and emit a segment when the joined text is non-empty. -/
def segmentsGo {α : Type} (entries : List (TranscriptEntry α)) :
    List ℕ → ℕ → List (Segment α)
  | [], _ => []
  | change_idx :: rest, start_idx =>
    let segment_text := ((pySlice entries start_idx change_idx).map (·.text)).flatten
    let start_time := (entries.getD start_idx default).start
    if segment_text.isEmpty then segmentsGo entries rest change_idx
    else ⟨start_time, segment_text⟩ :: segmentsGo entries rest change_idx

/-- `create_segments_with_topics` (video_summarizer_api.py, lines 122-146):
the boundary list is the topic-change indices followed by the transcript
length. -/
def create_segments_with_topics {α : Type}
    (entries : List (TranscriptEntry α)) (topic_change_indices : List ℕ) : List (Segment α) :=
  segmentsGo entries (topic_change_indices ++ [entries.length]) 0

/-- The post-filter of `detect_topic_changes` (lines 99-105): keep a candidate
only when it is at least `window_size` positions after the last kept one,
starting from `last = -window_size * 2`. -/
def spacingGo (window_size : ℕ) : List ℕ → ℤ → List ℕ
  | [], _ => []
  | c :: rest, last =>
    if (window_size : ℤ) ≤ (c : ℤ) - last then c :: spacingGo window_size rest (c : ℤ)
    else spacingGo window_size rest last

/-- `detect_topic_changes` (video_summarizer_api.py, lines 67-107). The TF-IDF
cosine similarity computed by the external `sklearn` vectorizer is abstracted
as the oracle `sim`; `none` models the `except: continue` branch. -/
def detect_topic_changes {α : Type} (sim : List α → List α → Option ℚ)
    (entries : List (TranscriptEntry α)) (window_size : ℕ) (threshold : ℚ) : List ℕ :=
  if entries.length < window_size * 2 then []
  else
    let texts := entries.map (·.text)
    let topic_changes := (List.range' window_size (entries.length - window_size - window_size)).filter
      fun i =>
        match sim ((pySlice texts (i - window_size) i).flatten)
                  ((pySlice texts i (i + window_size)).flatten) with
        | none => false
        | some s => decide (s < threshold)
    spacingGo window_size topic_changes (-(window_size * 2 : ℤ))

/-- Python `f-string` two-digit zero padding `f"{n:02d}"`. -/
def pad2 (n : ℤ) : String :=
  if 0 ≤ n ∧ n < 10 then "0" ++ toString n else toString n

/-- `format_timestamp` (video_summarizer_api.py, lines 110-119): float
floor-division and modulo are modelled exactly on `ℚ`. -/
def format_timestamp (seconds : ℚ) : String :=
  let hours : ℤ := ⌊seconds / 3600⌋
  let minutes : ℤ := ⌊(seconds - 3600 * ((⌊seconds / 3600⌋ : ℤ) : ℚ)) / 60⌋
  let secs : ℤ := ⌊seconds - 60 * ((⌊seconds / 60⌋ : ℤ) : ℚ)⌋
  if 0 < hours then pad2 hours ++ ":" ++ pad2 minutes ++ ":" ++ pad2 secs
  else pad2 minutes ++ ":" ++ pad2 secs

/-- `textrank_summarize` with its automatic target-length computation (lines
323-326): a `none` or `0` setting for `max_sentences` triggers the estimator. -/
def textrank_summarize {α : Type} [DecidableEq α] (sents : List (List α))
    (scores : List ℚ) (num_words : ℕ) (max_sentences : Option ℕ) : List (List α) :=
  let target : ℕ :=
    match max_sentences with
    | none => calculate_optimal_summary_length num_words sents.length
    | some 0 => calculate_optimal_summary_length num_words sents.length
    | some m => m
  textrank_select sents scores target

/-- A concrete three-entry transcript used as test data. -/
def sampleEntries3 : List (TranscriptEntry ℕ) :=
  [⟨[1], 0, 1⟩, ⟨[2], 1, 1⟩, ⟨[3], 2, 1⟩]

/-- A concrete nine-entry transcript used as test data. -/
def sampleEntries9 : List (TranscriptEntry ℕ) :=
  [⟨[1], 0, 1⟩, ⟨[2], 1, 1⟩, ⟨[3], 2, 1⟩, ⟨[4], 3, 1⟩, ⟨[5], 4, 1⟩,
   ⟨[6], 5, 1⟩, ⟨[7], 6, 1⟩, ⟨[8], 7, 1⟩, ⟨[9], 8, 1⟩]

/-! Helper lemmas -/

/-- The position bucket conditions of the source, restated over `ℕ`. -/
theorem position_scores_eq (n i : ℕ) :
    position_scores n i =
      if i = 0 then 3 else if i = 1 then 2
      else if i < 5 ∧ 10 * i < n then (3/2 : ℚ)
      else if n ≤ i + 1 then 9/5
      else if n ≤ i + 3 then 13/10
      else 1 := by
  have hq : ((i:ℚ) < min 5 ((n:ℚ) * (1/10))) ↔ (i < 5 ∧ 10 * i < n) := by
    rw [lt_min_iff]
    constructor
    · rintro ⟨a, b⟩
      refine ⟨by exact_mod_cast a, ?_⟩
      have hb : (i:ℚ) * 10 < n := by linarith
      have hc : i * 10 < n := by exact_mod_cast hb
      omega
    · rintro ⟨a, b⟩
      refine ⟨by exact_mod_cast a, ?_⟩
      have hb : ((10 * i : ℕ) : ℚ) < ((n : ℕ) : ℚ) := by exact_mod_cast b
      push_cast at hb
      linarith
  have h2 : ((n:ℤ) - 1 ≤ (i:ℤ)) ↔ n ≤ i + 1 := by omega
  have h3 : ((n:ℤ) - 3 ≤ (i:ℤ)) ↔ n ≤ i + 3 := by omega
  unfold position_scores
  simp only [hq, h2, h3]

/-! Claim theorems -/

/-- C3 counterexample: in a 10-sentence document, the claim's reading of the
first-10% bucket ("boundary at minimum index 5") assigns index 2 the weight
1.5, but the code computes `min(5, 10 * 0.1) = 1` as the boundary and gives
index 2 the default weight 1.0. -/
theorem C3_counterexample :
    position_scores 10 2 = 1 ∧ ¬ position_scores 10 2 = 3/2 := by
  unfold position_scores
  norm_num [min_def]

/-- C3 (amended): the position sub-score buckets, applied in the priority
order of the source's `if/elif` chain: index 0 gets 3.0; otherwise index 1
gets 2.0; otherwise indices below `min(5, N * 0.1)` (the first 10% capped at
index 5) get 1.5; otherwise the last index gets 1.8; otherwise the two
sentences immediately before the last get 1.3; all others 1.0. -/
theorem C3_position_score_buckets (n i : ℕ) (h : i < n) :
    (i = 0 → position_scores n i = 3) ∧
    (i = 1 → position_scores n i = 2) ∧
    (2 ≤ i → i < 5 → 10 * i < n → position_scores n i = 3/2) ∧
    (2 ≤ i → (5 ≤ i ∨ n ≤ 10 * i) → i + 1 = n → position_scores n i = 9/5) ∧
    (2 ≤ i → (5 ≤ i ∨ n ≤ 10 * i) → i + 1 < n → n ≤ i + 3 → position_scores n i = 13/10) ∧
    (2 ≤ i → (5 ≤ i ∨ n ≤ 10 * i) → i + 3 < n → position_scores n i = 1) := by
  rw [position_scores_eq]
  refine ⟨?_, ?_, ?_, ?_, ?_, ?_⟩ <;>
    · intros
      split_ifs <;> first | rfl | omega

/-- Witness for `C3_position_score_buckets` at document length 100, index 3. -/
theorem C3_position_score_buckets_witness :
    3 < 100 ∧ 2 ≤ 3 ∧ 3 < 5 ∧ 10 * 3 < 100 ∧ position_scores 100 3 = 3/2 :=
  ⟨by decide, by decide, by decide, by decide,
    (C3_position_score_buckets 100 3 (by decide)).2.2.1 (by decide) (by decide)
      (by decide)⟩

/-- C4 counterexample: a one-sentence text of 3 words. The estimator returns
`min(2, 1) = 1`, so the value finally returned does not lie in `[2, 12]` as
the claim asserts. -/
theorem C4_counterexample :
    calculate_optimal_summary_length 3 1 = 1 ∧
      ¬ 2 ≤ calculate_optimal_summary_length 3 1 := by
  unfold calculate_optimal_summary_length
  norm_num

/-- C4 (amended): the estimator agrees with the claim's bracket formulas,
shrink/grow adjustment and `[2, 12]` clamp, with the final value additionally
capped at the sentence count: it equals `min(S, clamp)`, never exceeds `S`,
and lies in `[2, 12]` whenever `S ≥ 2` (for `S < 2` it equals `S`). -/
theorem C4_length_estimator (num_words num_sentences : ℕ) :
    calculate_optimal_summary_length num_words num_sentences =
      optimal_length_spec num_words num_sentences ∧
    calculate_optimal_summary_length num_words num_sentences ≤ num_sentences ∧
    (2 ≤ num_sentences →
      2 ≤ calculate_optimal_summary_length num_words num_sentences ∧
      calculate_optimal_summary_length num_words num_sentences ≤ 12) := by
  have havg1 : (25 < (if 0 < num_sentences then (num_words : ℚ) / (num_sentences : ℚ) else 0)) ↔
      (0 < num_sentences ∧ 25 * num_sentences < num_words) := by
    split_ifs with hS
    · rw [lt_div_iff₀ (by exact_mod_cast hS)]
      constructor
      · intro hh
        refine ⟨hS, ?_⟩
        have : ((25 * num_sentences : ℕ) : ℚ) < ((num_words : ℕ) : ℚ) := by push_cast; linarith
        exact_mod_cast this
      · rintro ⟨-, hh⟩
        have : ((25 * num_sentences : ℕ) : ℚ) < ((num_words : ℕ) : ℚ) := by exact_mod_cast hh
        push_cast at this
        linarith
    · constructor
      · intro hh; norm_num at hh
      · rintro ⟨h1, -⟩; exact absurd h1 hS
  have havg2 : ((if 0 < num_sentences then (num_words : ℚ) / (num_sentences : ℚ) else 0) < 10) ↔
      (num_sentences = 0 ∨ num_words < 10 * num_sentences) := by
    split_ifs with hS
    · rw [div_lt_iff₀ (by exact_mod_cast hS)]
      constructor
      · intro hh
        right
        have : ((num_words : ℕ) : ℚ) < ((10 * num_sentences : ℕ) : ℚ) := by push_cast; linarith
        exact_mod_cast this
      · rintro (h0 | hh)
        · exact absurd hS (by omega)
        · have : ((num_words : ℕ) : ℚ) < ((10 * num_sentences : ℕ) : ℚ) := by exact_mod_cast hh
          push_cast at this
          linarith
    · constructor
      · intro _; left; omega
      · intro _; norm_num
  unfold calculate_optimal_summary_length optimal_length_spec
  simp only [havg1, havg2]
  refine ⟨?_, ?_, ?_⟩ <;>
    · split_ifs <;> omega

/-- Witness for `C4_length_estimator` at 120 words, 5 sentences. -/
theorem C4_length_estimator_witness :
    2 ≤ 5 ∧ 2 ≤ calculate_optimal_summary_length 120 5 ∧
      calculate_optimal_summary_length 120 5 ≤ 12 :=
  ⟨by decide, (C4_length_estimator 120 5).2.2 (by decide)⟩

/-- C8: the extractive summarizer is a pure function of its input text
(tokenized sentences, scores, word count) and configuration, so two calls with
identical arguments return identical output; there is no randomness anywhere
in the pipeline. -/
theorem C8_determinism {α : Type} [DecidableEq α] (sents : List (List α))
    (scores : List ℚ) (num_words : ℕ) (max_sentences : Option ℕ) :
    textrank_summarize sents scores num_words max_sentences =
      textrank_summarize sents scores num_words max_sentences := rfl

/-- C10: when either sentence's token set is empty, `are_sentences_similar`
returns `False` regardless of the threshold, and consequently a sentence with
an empty token set is never rejected as redundant by the strict selection
pass. -/
theorem C10_empty_token_set {α : Type} [DecidableEq α] :
    (∀ (sent1 sent2 : List α) (threshold : ℚ),
      sent1.toFinset = ∅ ∨ sent2.toFinset = ∅ →
        are_sentences_similar sent1 sent2 threshold = false) ∧
    (∀ (sent : List α) (sents : List (List α)) (sel : List ℕ),
      sent.toFinset = ∅ → isRedundant sent sents sel = false) := by
  have h1 : ∀ (sent1 sent2 : List α) (threshold : ℚ),
      sent1.toFinset = ∅ ∨ sent2.toFinset = ∅ →
        are_sentences_similar sent1 sent2 threshold = false := by
    intro sent1 sent2 threshold h
    unfold are_sentences_similar
    rw [if_pos]
    rcases h with h | h
    · exact Or.inl (by rw [h]; rfl)
    · exact Or.inr (by rw [h]; rfl)
  refine ⟨h1, ?_⟩
  intro sent sents sel h
  unfold isRedundant
  rw [List.any_eq_false]
  intro j _
  rw [h1 sent (sents.getD j []) (1/2) (Or.inl h)]
  exact Bool.false_ne_true

/-- Witness for `C10_empty_token_set`: the empty sentence against a one-word
sentence at the source's default threshold 0.7. -/
theorem C10_empty_token_set_witness :
    ([] : List ℕ).toFinset = ∅ ∧
      are_sentences_similar ([] : List ℕ) [1] (7/10) = false :=
  ⟨rfl, (C10_empty_token_set (α := ℕ)).1 [] [1] (7/10) (Or.inl rfl)⟩

/-- A term-frequency vector with a non-zero entry sum has a positive dot
product with itself. -/
theorem dotN_self_pos (v : List ℕ) (h : v.sum ≠ 0) : 0 < dotN v v := by
  induction v with
  | nil => simp at h
  | cons a t ih =>
    simp only [List.sum_cons] at h
    simp only [dotN, List.zip_cons_cons, List.map_cons, List.sum_cons]
    rcases Nat.eq_zero_or_pos a with ha | ha
    · subst ha
      simp only [Nat.zero_add] at h
      have := ih h
      simp only [dotN] at this
      omega
    · have hp : 0 < a * a := Nat.mul_pos ha ha
      omega

/-- C5: the similarity kernel never divides by zero. When either sentence's
stopword-filtered term-frequency vector sums to zero, `sentence_similarity`
returns 0 without entering the cosine computation; otherwise the denominator
of `cosine_distance` is non-zero; and every diagonal entry of the matrix built
by `build_similarity_matrix` is 0. -/
theorem C5_similarity_well_defined {α : Type} [DecidableEq α]
    (sent1 sent2 stop_words : List α) :
    ((simVectors sent1 sent2 stop_words).1.sum = 0 ∨
        (simVectors sent1 sent2 stop_words).2.sum = 0 →
      sentence_similarity sent1 sent2 stop_words = 0) ∧
    (¬ ((simVectors sent1 sent2 stop_words).1.sum = 0 ∨
        (simVectors sent1 sent2 stop_words).2.sum = 0) →
      Real.sqrt (dotN (simVectors sent1 sent2 stop_words).1 (simVectors sent1 sent2 stop_words).1) *
        Real.sqrt (dotN (simVectors sent1 sent2 stop_words).2 (simVectors sent1 sent2 stop_words).2)
        ≠ 0) ∧
    (∀ (sentences : List (List α)) (i : ℕ),
      build_similarity_matrix sentences stop_words i i = 0) := by
  refine ⟨?_, ?_, ?_⟩
  · intro h
    simp only [simVectors] at h
    simp only [sentence_similarity]
    rw [if_pos h]
  · intro h
    push_neg at h
    obtain ⟨h1, h2⟩ := h
    have d1 : 0 < dotN (simVectors sent1 sent2 stop_words).1 (simVectors sent1 sent2 stop_words).1 :=
      dotN_self_pos _ h1
    have d2 : 0 < dotN (simVectors sent1 sent2 stop_words).2 (simVectors sent1 sent2 stop_words).2 :=
      dotN_self_pos _ h2
    have s1 : 0 < Real.sqrt (dotN (simVectors sent1 sent2 stop_words).1 (simVectors sent1 sent2 stop_words).1) :=
      Real.sqrt_pos.mpr (by exact_mod_cast d1)
    have s2 : 0 < Real.sqrt (dotN (simVectors sent1 sent2 stop_words).2 (simVectors sent1 sent2 stop_words).2) :=
      Real.sqrt_pos.mpr (by exact_mod_cast d2)
    exact (mul_pos s1 s2).ne'
  · intro sentences i
    simp only [build_similarity_matrix]
    rw [if_neg]
    rintro ⟨-, -, hne⟩
    exact hne rfl

/-- Witness for `C5_similarity_well_defined`: sentence `[0]` against `[1]`
with stopword list `[0]`; the first filtered vector sums to zero and the
similarity is 0. -/
theorem C5_similarity_well_defined_witness :
    (simVectors [0] [1] ([0] : List ℕ)).1.sum = 0 ∧
      sentence_similarity [0] [1] ([0] : List ℕ) = 0 :=
  ⟨by decide, (C5_similarity_well_defined [0] [1] [0]).1 (Or.inl (by decide))⟩

/-- C9: `format_timestamp` renders `MM:SS` for inputs below 3600 seconds and
`HH:MM:SS` otherwise, each field two-digit zero-padded, with the fields given
by the floor arithmetic of the source; in particular `format_timestamp 3725 =
"01:02:05"` and `format_timestamp 125 = "02:05"`. -/
theorem C9_format_timestamp :
    format_timestamp 3725 = "01:02:05" ∧ format_timestamp 125 = "02:05" ∧
    ∀ s : ℚ, 0 ≤ s →
      (s < 3600 → format_timestamp s =
        pad2 ⌊s / 60⌋ ++ ":" ++ pad2 (⌊s⌋ - 60 * ⌊s / 60⌋)) ∧
      (3600 ≤ s → format_timestamp s =
        pad2 ⌊s / 3600⌋ ++ ":" ++ pad2 (⌊s / 60⌋ - 60 * ⌊s / 3600⌋) ++ ":" ++
          pad2 (⌊s⌋ - 60 * ⌊s / 60⌋)) := by
  have hsecs : ∀ s : ℚ, ⌊s - 60 * ((⌊s / 60⌋ : ℤ) : ℚ)⌋ = ⌊s⌋ - 60 * ⌊s / 60⌋ := by
    intro s
    have he : s - 60 * ((⌊s / 60⌋ : ℤ) : ℚ) = s - ((60 * ⌊s / 60⌋ : ℤ) : ℚ) := by
      push_cast
      ring
    rw [he, Int.floor_sub_int]
  have hmins : ∀ s : ℚ,
      ⌊(s - 3600 * ((⌊s / 3600⌋ : ℤ) : ℚ)) / 60⌋ = ⌊s / 60⌋ - 60 * ⌊s / 3600⌋ := by
    intro s
    have he : (s - 3600 * ((⌊s / 3600⌋ : ℤ) : ℚ)) / 60 =
        s / 60 - ((60 * ⌊s / 3600⌋ : ℤ) : ℚ) := by
      push_cast
      ring
    rw [he, Int.floor_sub_int]
  refine ⟨?_, ?_, ?_⟩
  · unfold format_timestamp pad2
    norm_num
    rfl
  · unfold format_timestamp pad2
    norm_num
    rfl
  · intro s hs
    constructor
    · intro hlt
      have h0 : ⌊s / 3600⌋ = 0 := by
        rw [Int.floor_eq_zero_iff]
        constructor
        · positivity
        · rw [div_lt_one (by norm_num)]
          exact hlt
      unfold format_timestamp
      rw [h0]
      rw [if_neg (lt_irrefl 0)]
      rw [hsecs s]
      norm_num
    · intro hge
      have h1 : 0 < ⌊s / 3600⌋ := by
        have : (1 : ℚ) ≤ s / 3600 := by
          rw [le_div_iff₀ (by norm_num)]
          linarith
        exact_mod_cast Int.le_floor.mpr (by exact_mod_cast this)
      unfold format_timestamp
      rw [if_pos h1, hmins s, hsecs s]

/-- Witness for `C9_format_timestamp` at 125 seconds. -/
theorem C9_format_timestamp_witness :
    (0 : ℚ) ≤ 125 ∧ (125 : ℚ) < 3600 ∧
      format_timestamp 125 =
        pad2 ⌊(125 : ℚ) / 60⌋ ++ ":" ++ pad2 (⌊(125 : ℚ)⌋ - 60 * ⌊(125 : ℚ) / 60⌋) :=
  ⟨by decide, by decide, (C9_format_timestamp.2.2 125 (by decide)).1 (by decide)⟩

/-- The Jaccard similarity is symmetric. -/
theorem jaccardSim_comm {α : Type} [DecidableEq α] (s1 s2 : List α) :
    jaccardSim s1 s2 = jaccardSim s2 s1 := by
  unfold jaccardSim
  rw [Finset.inter_comm, Finset.union_comm]

/-- Unfolded form of `are_sentences_similar`. -/
theorem are_sentences_similar_def {α : Type} [DecidableEq α] (s1 s2 : List α) (t : ℚ) :
    are_sentences_similar s1 s2 t =
      if s1.toFinset.card = 0 ∨ s2.toFinset.card = 0 then false
      else decide (t < (if 0 < (s1.toFinset ∪ s2.toFinset).card then
        ((s1.toFinset ∩ s2.toFinset).card : ℚ) / ((s1.toFinset ∪ s2.toFinset).card : ℚ)
        else 0)) := rfl

/-- `are_sentences_similar` at threshold `0.5` holds exactly when the Jaccard
similarity of the two word sets strictly exceeds `1/2`. -/
theorem are_sentences_similar_iff {α : Type} [DecidableEq α] (s1 s2 : List α) :
    are_sentences_similar s1 s2 (1/2) = true ↔ 1/2 < jaccardSim s1 s2 := by
  by_cases hg : s1.toFinset.card = 0 ∨ s2.toFinset.card = 0
  · rw [are_sentences_similar_def, if_pos hg]
    have hint : (s1.toFinset ∩ s2.toFinset).card = 0 := by
      rcases hg with h | h
      · rw [Finset.card_eq_zero.mp h]
        simp
      · rw [Finset.card_eq_zero.mp h]
        simp
    have hj : jaccardSim s1 s2 = 0 := by
      unfold jaccardSim
      rw [hint, Nat.cast_zero, zero_div]
    constructor
    · intro h
      exact absurd h Bool.false_ne_true
    · intro h
      rw [hj] at h
      norm_num at h
  · have hgn := hg
    push_neg at hgn
    obtain ⟨h1, -⟩ := hgn
    have hu : 0 < (s1.toFinset ∪ s2.toFinset).card := by
      have hne : s1.toFinset.Nonempty := Finset.card_pos.mp (Nat.pos_of_ne_zero h1)
      exact Finset.card_pos.mpr (hne.mono Finset.subset_union_left)
    rw [are_sentences_similar_def, if_neg hg, if_pos hu]
    rw [decide_eq_true_eq]
    unfold jaccardSim
    exact Iff.rfl

/-- Invariant of the strict selection pass: if the already-selected indices
are pairwise non-redundant (Jaccard at most `1/2`), so is its result. -/
theorem strictPass_pairwise {α : Type} [DecidableEq α] (sents : List (List α))
    (target : ℕ) : ∀ (ranked sel : List ℕ),
    (∀ i ∈ sel, ∀ j ∈ sel, i ≠ j →
      jaccardSim (sents.getD i []) (sents.getD j []) ≤ 1/2) →
    ∀ i ∈ strictPass sents target ranked sel, ∀ j ∈ strictPass sents target ranked sel,
      i ≠ j → jaccardSim (sents.getD i []) (sents.getD j []) ≤ 1/2 := by
  intro ranked
  induction ranked with
  | nil =>
    intro sel h
    simpa only [strictPass] using h
  | cons idx rest ih =>
    intro sel h
    simp only [strictPass]
    split_ifs with ht hr
    · exact h
    · exact ih sel h
    · apply ih (sel ++ [idx])
      have hns : ∀ j ∈ sel,
          are_sentences_similar (sents.getD idx []) (sents.getD j []) (1/2) = false := by
        intro j hj
        have hfalse : isRedundant (sents.getD idx []) sents sel = false :=
          Bool.not_eq_true _ |>.mp hr
        unfold isRedundant at hfalse
        rw [List.any_eq_false] at hfalse
        simpa using hfalse j hj
      have hbound : ∀ j ∈ sel,
          jaccardSim (sents.getD idx []) (sents.getD j []) ≤ 1/2 := by
        intro j hj
        by_contra hgt
        push_neg at hgt
        have hsim := (are_sentences_similar_iff (sents.getD idx []) (sents.getD j [])).mpr hgt
        rw [hns j hj] at hsim
        exact Bool.false_ne_true hsim
      intro i hi j hj hne
      rcases List.mem_append.mp hi with hi' | hi'
      · rcases List.mem_append.mp hj with hj' | hj'
        · exact h i hi' j hj' hne
        · have hjj : j = idx := by simpa using hj'
          rw [hjj, jaccardSim_comm]
          exact hbound i hi'
      · have hii : i = idx := by simpa using hi'
        rcases List.mem_append.mp hj with hj' | hj'
        · rw [hii]
          exact hbound j hj'
        · have hjj : j = idx := by simpa using hj'
          rw [hii, hjj] at hne
          exact absurd rfl hne

/-- C2: during the strict selection pass a candidate is rejected exactly when
its Jaccard word-set similarity strictly exceeds `0.5` against some
already-selected sentence, and consequently any two distinct sentences
selected by the strict pass (i.e. without backfill) have pairwise Jaccard
similarity at most `0.5`. -/
theorem C2_redundancy_check {α : Type} [DecidableEq α] :
    (∀ (sent : List α) (sents : List (List α)) (sel : List ℕ),
      isRedundant sent sents sel = true ↔
        ∃ j ∈ sel, 1/2 < jaccardSim sent (sents.getD j [])) ∧
    (∀ (sents : List (List α)) (target : ℕ) (ranked : List ℕ),
      ∀ i ∈ strictPass sents target ranked [],
        ∀ j ∈ strictPass sents target ranked [],
          i ≠ j → jaccardSim (sents.getD i []) (sents.getD j []) ≤ 1/2) := by
  constructor
  · intro sent sents sel
    unfold isRedundant
    rw [List.any_eq_true]
    constructor
    · rintro ⟨j, hj, hsim⟩
      exact ⟨j, hj, (are_sentences_similar_iff _ _).mp hsim⟩
    · rintro ⟨j, hj, hsim⟩
      exact ⟨j, hj, (are_sentences_similar_iff _ _).mpr hsim⟩
  · intro sents target ranked
    exact strictPass_pairwise sents target ranked [] (by simp)

/-- Witness for `C2_redundancy_check`: the strict pass selects both sentences
of a two-sentence document, and their Jaccard similarity is at most 0.5. -/
theorem C2_redundancy_check_witness :
    0 ∈ strictPass ([[], []] : List (List ℕ)) 2 [0, 1] [] ∧
    1 ∈ strictPass ([[], []] : List (List ℕ)) 2 [0, 1] [] ∧
    jaccardSim (([[], []] : List (List ℕ)).getD 0 []) ([[], []].getD 1 []) ≤ 1/2 :=
  ⟨by decide, by decide,
    (C2_redundancy_check (α := ℕ)).2 [[], []] 2 [0, 1]
      0 (by decide) 1 (by decide) (by decide)⟩

/-- The ranked index list is a permutation of `0, ..., n-1`. -/
theorem rankedIndices_perm (scores : List ℚ) :
    (rankedIndices scores).Perm (List.range scores.length) := by
  unfold rankedIndices
  have h1 : (((List.range scores.length).zip scores).mergeSort
      (fun a b => decide (b.2 ≤ a.2))).Perm ((List.range scores.length).zip scores) :=
    List.mergeSort_perm _ _
  have h2 := h1.map Prod.fst
  rwa [List.map_fst_zip _ _ (by rw [List.length_range])] at h2

/-- The strict pass never selects more than `target` indices. -/
theorem strictPass_length_le {α : Type} [DecidableEq α] (sents : List (List α))
    (target : ℕ) : ∀ (l sel : List ℕ), sel.length ≤ target →
    (strictPass sents target l sel).length ≤ target := by
  intro l
  induction l with
  | nil =>
    intro sel h
    simpa only [strictPass] using h
  | cons idx rest ih =>
    intro sel h
    simp only [strictPass]
    split_ifs with ht hr
    · exact h
    · exact ih sel h
    · apply ih
      simp only [List.length_append, List.length_cons, List.length_nil]
      omega

/-- Every index returned by the strict pass comes from the accumulator or the
ranked list. -/
theorem strictPass_subset {α : Type} [DecidableEq α] (sents : List (List α))
    (target : ℕ) : ∀ (l sel : List ℕ), ∀ x ∈ strictPass sents target l sel,
    x ∈ sel ∨ x ∈ l := by
  intro l
  induction l with
  | nil =>
    intro sel x hx
    left
    simpa only [strictPass] using hx
  | cons idx rest ih =>
    intro sel x hx
    simp only [strictPass] at hx
    split_ifs at hx with ht hr
    · exact Or.inl hx
    · rcases ih sel x hx with h | h
      · exact Or.inl h
      · exact Or.inr (List.mem_cons_of_mem _ h)
    · rcases ih (sel ++ [idx]) x hx with h | h
      · rcases List.mem_append.mp h with h' | h'
        · exact Or.inl h'
        · have hx' : x = idx := by simpa using h'
          exact Or.inr (hx' ▸ List.mem_cons_self idx rest)
      · exact Or.inr (List.mem_cons_of_mem _ h)

/-- The strict pass preserves freedom from duplicates. -/
theorem strictPass_nodup {α : Type} [DecidableEq α] (sents : List (List α))
    (target : ℕ) : ∀ (l sel : List ℕ), (sel ++ l).Nodup →
    (strictPass sents target l sel).Nodup := by
  intro l
  induction l with
  | nil =>
    intro sel h
    simp only [List.append_nil] at h
    simpa only [strictPass] using h
  | cons idx rest ih =>
    intro sel h
    simp only [strictPass]
    split_ifs with ht hr
    · exact (List.nodup_append.mp h).1
    · apply ih
      have hsub : List.Sublist (sel ++ rest) (sel ++ idx :: rest) :=
        List.Sublist.append_left (List.sublist_cons_self idx rest) sel
      exact h.sublist hsub
    · apply ih
      simpa [List.append_assoc] using h

/-- The backfill pass reaches exactly the target count when the ranked list
holds enough indices not yet selected. -/
theorem backfillPass_length (target : ℕ) :
    ∀ (l sel : List ℕ), l.Nodup → sel.length ≤ target →
    target ≤ sel.length + (l.filter (fun x => x ∉ sel)).length →
    (backfillPass target l sel).length = target := by
  intro l
  induction l with
  | nil =>
    intro sel _ h1 h2
    simp only [List.filter_nil, List.length_nil, Nat.add_zero] at h2
    simp only [backfillPass]
    omega
  | cons idx rest ih =>
    intro sel hnd h1 h2
    simp only [backfillPass]
    split_ifs with ht hm
    · omega
    · apply ih sel hnd.of_cons h1
      have hfeq : (idx :: rest).filter (fun x => x ∉ sel) = rest.filter (fun x => x ∉ sel) := by
        rw [List.filter_cons]
        simp [hm]
      rwa [hfeq] at h2
    · apply ih (sel ++ [idx]) hnd.of_cons
      · simp only [List.length_append, List.length_cons, List.length_nil]
        omega
      · have hidx : idx ∉ rest := (List.nodup_cons.mp hnd).1
        have hfeq : rest.filter (fun x => x ∉ sel ++ [idx]) = rest.filter (fun x => x ∉ sel) := by
          apply List.filter_congr
          intro x hx
          have hxne : x ≠ idx := fun he => hidx (he ▸ hx)
          simp [List.mem_append, hxne]
        have hcons : ((idx :: rest).filter (fun x => x ∉ sel)).length =
            1 + (rest.filter (fun x => x ∉ sel)).length := by
          rw [List.filter_cons]
          simp [hm]
          omega
        rw [hfeq]
        simp only [List.length_append, List.length_cons, List.length_nil]
        omega

/-- C1: when the filtered candidate count exceeds the target, the selection
phase with backfill returns exactly `min(target, filtered_count)` sentences;
when the filtered count is at most the target, all filtered sentences are
returned verbatim in original document order; and at least one sentence is
selected whenever a valid candidate exists and the target is positive (the
caller-validated range is `[1, 20]` and the automatic estimator returns at
least 1 whenever a sentence exists). -/
theorem C1_selector_bounds {α : Type} [DecidableEq α] (sents : List (List α))
    (scores : List ℚ) (target : ℕ) (hlen : scores.length = sents.length) :
    (sents.length ≤ target → textrank_select sents scores target = sents) ∧
    (target < sents.length →
      (textrank_select sents scores target).length = min target sents.length) ∧
    (1 ≤ target → 1 ≤ sents.length → 1 ≤ (textrank_select sents scores target).length) := by
  have hperm : (rankedIndices scores).Perm (List.range sents.length) := by
    rw [← hlen]
    exact rankedIndices_perm scores
  have hnd : (rankedIndices scores).Nodup := hperm.nodup_iff.mpr (List.nodup_range _)
  have hrlen : (rankedIndices scores).length = sents.length := by
    rw [hperm.length_eq, List.length_range]
  have hmain : target < sents.length →
      (textrank_select sents scores target).length = min target sents.length := by
    intro hlt
    have h0 : (strictPass sents target (rankedIndices scores) []).length ≤ target :=
      strictPass_length_le sents target _ [] (by simp)
    have hnd0 : (strictPass sents target (rankedIndices scores) []).Nodup :=
      strictPass_nodup sents target _ [] (by simpa using hnd)
    have hcount : target ≤ (strictPass sents target (rankedIndices scores) []).length +
        ((rankedIndices scores).filter
          (fun x => x ∉ strictPass sents target (rankedIndices scores) [])).length := by
      set sel0 := strictPass sents target (rankedIndices scores) [] with hsel0
      have hf1 : ((rankedIndices scores).filter (fun x => x ∈ sel0)).Nodup := hnd.filter _
      have hf1s : ∀ x ∈ (rankedIndices scores).filter (fun x => x ∈ sel0), x ∈ sel0 := by
        intro x hx
        simpa using (List.mem_filter.mp hx).2
      have hle1 : ((rankedIndices scores).filter (fun x => x ∈ sel0)).length ≤ sel0.length := by
        calc ((rankedIndices scores).filter (fun x => x ∈ sel0)).length
            = ((rankedIndices scores).filter (fun x => x ∈ sel0)).toFinset.card :=
              (List.toFinset_card_of_nodup hf1).symm
          _ ≤ sel0.toFinset.card := Finset.card_le_card (fun x hx =>
              List.mem_toFinset.mpr (hf1s x (List.mem_toFinset.mp hx)))
          _ ≤ sel0.length := List.toFinset_card_le sel0
      have hsplit : (rankedIndices scores).length =
          ((rankedIndices scores).filter (fun x => x ∈ sel0)).length +
          ((rankedIndices scores).filter (fun x => x ∉ sel0)).length := by
        have hb := List.length_eq_length_filter_add (l := rankedIndices scores)
          (fun x => decide (x ∈ sel0))
        simpa [decide_not] using hb
      omega
    have hfinal := backfillPass_length target (rankedIndices scores) _ hnd h0 hcount
    unfold textrank_select
    rw [if_neg (by omega)]
    rw [List.length_map]
    unfold selectionIndices
    rw [List.length_mergeSort]
    rw [hfinal]
    omega
  refine ⟨?_, hmain, ?_⟩
  · intro hle
    unfold textrank_select
    rw [if_pos hle]
  · intro h1t h1n
    by_cases hle : sents.length ≤ target
    · unfold textrank_select
      rw [if_pos hle]
      exact h1n
    · push_neg at hle
      rw [hmain hle]
      omega

/-- Witness for `C1_selector_bounds`: three one-token candidates, target 2. -/
theorem C1_selector_bounds_witness :
    2 < ([[0], [1], [2]] : List (List ℕ)).length ∧
      (textrank_select ([[0], [1], [2]] : List (List ℕ)) [1, 2, 3] 2).length = min 2 3 :=
  ⟨by decide,
    (C1_selector_bounds [[0], [1], [2]] [1, 2, 3] 2 (by decide)).2.1 (by decide)⟩

/-- Dropping `s` entries splits as the Python slice `[s:c]` followed by the
entries from `c` on, when `s ≤ c`. -/
theorem drop_eq_pySlice_append {α : Type} (l : List α) (s c : ℕ) (h : s ≤ c) :
    l.drop s = pySlice l s c ++ l.drop c := by
  unfold pySlice
  conv_lhs => rw [← List.take_append_drop (c - s) (l.drop s)]
  congr 1
  rw [List.drop_drop]
  congr 1
  omega

/-- The segment texts produced from any non-decreasing boundary chain ending
at the transcript length concatenate to the texts of the remaining entries. -/
theorem segmentsGo_flatten {α : Type} (entries : List (TranscriptEntry α)) :
    ∀ (cs : List ℕ) (s : ℕ), (s :: cs).Chain' (· ≤ ·) →
    ((segmentsGo entries (cs ++ [entries.length]) s).map (·.text)).flatten =
      ((entries.drop s).map (·.text)).flatten := by
  intro cs
  induction cs with
  | nil =>
    intro s _
    simp only [List.nil_append, segmentsGo]
    have hslice : pySlice entries s entries.length = entries.drop s := by
      unfold pySlice
      exact List.take_of_length_le (by rw [List.length_drop])
    rw [hslice]
    split_ifs with hempty
    · simp only [segmentsGo, List.map_nil, List.flatten_nil]
      exact (List.isEmpty_iff.mp hempty).symm
    · simp [segmentsGo]
  | cons c rest ih =>
    intro s hch
    have hs_le : s ≤ c := (List.chain'_cons.mp hch).1
    have hch' : (c :: rest).Chain' (· ≤ ·) := (List.chain'_cons.mp hch).2
    have hsplit : ((entries.drop s).map (·.text)).flatten =
        ((pySlice entries s c).map (·.text)).flatten ++
          ((entries.drop c).map (·.text)).flatten := by
      rw [drop_eq_pySlice_append entries s c hs_le, List.map_append, List.flatten_append]
    simp only [List.cons_append, segmentsGo, List.append_eq]
    split_ifs with hempty
    · rw [ih c hch', hsplit, List.isEmpty_iff.mp hempty, List.nil_append]
    · simp only [List.map_cons, List.flatten_cons]
      rw [ih c hch', hsplit]

/-- Strict monotonicity of entry start times, read through `getD`. -/
theorem start_getD_lt {α : Type} (entries : List (TranscriptEntry α))
    (hst : ((entries.map (·.start)).Pairwise (· < ·))) (i j : ℕ) (hij : i < j)
    (hj : j < entries.length) :
    (entries.getD i default).start < (entries.getD j default).start := by
  have hi : i < entries.length := lt_trans hij hj
  have hmap := List.pairwise_iff_getElem.mp hst i j (by simpa) (by simpa) hij
  simp only [List.getElem_map] at hmap
  rw [List.getD_eq_getElem entries default hi, List.getD_eq_getElem entries default hj]
  exact hmap

/-- A non-empty Python slice `[s:c]` forces `s < c` and `s` in range. -/
theorem pySlice_ne_nil {α : Type} (l : List α) (s c : ℕ) (h : pySlice l s c ≠ []) :
    s < c ∧ s < l.length := by
  unfold pySlice at h
  constructor
  · by_contra hsc
    push_neg at hsc
    have : c - s = 0 := by omega
    rw [this, List.take_zero] at h
    exact h rfl
  · by_contra hs
    push_neg at hs
    rw [List.drop_eq_nil_of_le hs] at h
    simp at h

/-- Over any non-decreasing boundary list, the segments produced by
`segmentsGo` have strictly increasing start times (when the transcript's own
start times strictly increase), and each segment's start time is the start
time of an in-range entry at or after the current position. -/
theorem segmentsGo_starts {α : Type} (entries : List (TranscriptEntry α))
    (hst : (entries.map (·.start)).Pairwise (· < ·)) :
    ∀ (cs : List ℕ) (s : ℕ), (s :: cs).Chain' (· ≤ ·) →
    ((segmentsGo entries cs s).map (·.start_seconds)).Pairwise (· < ·) ∧
    (∀ seg ∈ segmentsGo entries cs s, ∃ j, s ≤ j ∧ j < entries.length ∧
      seg.start_seconds = (entries.getD j default).start) := by
  intro cs
  induction cs with
  | nil =>
    intro s _
    constructor
    · simp [segmentsGo]
    · intro seg hseg
      simp only [segmentsGo] at hseg
      exact absurd hseg (List.not_mem_nil seg)
  | cons c rest ih =>
    intro s hch
    have hs_le : s ≤ c := (List.chain'_cons.mp hch).1
    have hch' : (c :: rest).Chain' (· ≤ ·) := (List.chain'_cons.mp hch).2
    obtain ⟨ihp, ihm⟩ := ih c hch'
    simp only [segmentsGo]
    split_ifs with hempty
    · refine ⟨ihp, ?_⟩
      intro seg hseg
      obtain ⟨j, hcj, hjlen, heq⟩ := ihm seg hseg
      exact ⟨j, le_trans hs_le hcj, hjlen, heq⟩
    · have hslice : pySlice entries s c ≠ [] := by
        intro hnil
        apply hempty
        rw [hnil]
        rfl
      obtain ⟨hsc, hslen⟩ := pySlice_ne_nil entries s c hslice
      constructor
      · simp only [List.map_cons]
        rw [List.pairwise_cons]
        refine ⟨?_, ihp⟩
        intro b hb
        obtain ⟨seg, hseg, rfl⟩ := List.mem_map.mp hb
        obtain ⟨j, hcj, hjlen, heq⟩ := ihm seg hseg
        rw [heq]
        exact start_getD_lt entries hst s j (lt_of_lt_of_le hsc hcj) hjlen
      · intro seg hseg
        rcases List.mem_cons.mp hseg with hhd | htl
        · exact ⟨s, le_refl s, hslen, by rw [hhd]⟩
        · obtain ⟨j, hcj, hjlen, heq⟩ := ihm seg htl
          exact ⟨j, le_trans hs_le hcj, hjlen, heq⟩

/-- Appending the transcript length to a strictly increasing in-range boundary
list yields a non-decreasing chain. -/
theorem chain_le_append (L : ℕ) : ∀ (cs : List ℕ), cs.Chain' (· < ·) →
    (∀ c ∈ cs, c < L) → (cs ++ [L]).Chain' (· ≤ ·) := by
  intro cs
  induction cs with
  | nil =>
    intro _ _
    simp
  | cons c rest ih =>
    intro hch hin
    rw [List.cons_append, List.chain'_cons']
    constructor
    · intro y hy
      cases rest with
      | nil =>
        simp only [List.nil_append, List.head?_cons, Option.mem_def, Option.some.injEq] at hy
        rw [← hy]
        exact le_of_lt (hin c (by simp))
      | cons d ds =>
        simp only [List.cons_append, List.head?_cons, Option.mem_def, Option.some.injEq] at hy
        rw [← hy]
        exact le_of_lt (List.chain'_cons.mp hch).1
    · exact ih hch.tail (fun x hx => hin x (List.mem_cons_of_mem _ hx))

/-- C6 counterexample: the claim quantifies over every list of topic-change
indices, but for the non-monotone index list `[2, 1]` on a three-entry
transcript the produced segments duplicate entries 2 and 3, so concatenating
the segment texts does not reproduce the transcript text. -/
theorem C6_counterexample :
    ((create_segments_with_topics sampleEntries3 [2, 1]).map (·.text)).flatten ≠
      (sampleEntries3.map (·.text)).flatten := by
  decide

/-- C6 (amended): for a non-empty transcript whose entry start times strictly
increase, and topic-change indices that are strictly increasing and within
range — as `detect_topic_changes` produces — the segments partition the
transcript exhaustively (concatenating all segment texts reproduces the full
transcript text, whitespace-normalized) and segment start times strictly
increase. -/
theorem C6_segment_partition {α : Type} (entries : List (TranscriptEntry α))
    (changes : List ℕ) (_hne : entries ≠ [])
    (hchain : changes.Chain' (· < ·)) (hrange : ∀ c ∈ changes, c < entries.length)
    (hst : (entries.map (·.start)).Pairwise (· < ·)) :
    ((create_segments_with_topics entries changes).map (·.text)).flatten =
      (entries.map (·.text)).flatten ∧
    ((create_segments_with_topics entries changes).map (·.start_seconds)).Pairwise (· < ·) := by
  have hch0 : (0 :: changes).Chain' (· ≤ ·) := by
    rw [List.chain'_cons']
    exact ⟨fun y _ => Nat.zero_le y, hchain.imp (fun _ _ hab => le_of_lt hab)⟩
  constructor
  · have hf := segmentsGo_flatten entries changes 0 hch0
    rw [List.drop_zero] at hf
    exact hf
  · have hchfull : (0 :: (changes ++ [entries.length])).Chain' (· ≤ ·) := by
      rw [List.chain'_cons']
      exact ⟨fun y _ => Nat.zero_le y, chain_le_append entries.length changes hchain hrange⟩
    exact (segmentsGo_starts entries hst (changes ++ [entries.length]) 0 hchfull).1

/-- Witness for `C6_segment_partition`: the three-entry transcript with the
single topic change index 1. -/
theorem C6_segment_partition_witness :
    sampleEntries3 ≠ [] ∧ ([1] : List ℕ).Chain' (· < ·) ∧
      (∀ c ∈ ([1] : List ℕ), c < sampleEntries3.length) ∧
      (sampleEntries3.map (·.start)).Pairwise (· < ·) ∧
      ((create_segments_with_topics sampleEntries3 [1]).map (·.text)).flatten =
        (sampleEntries3.map (·.text)).flatten :=
  ⟨by simp [sampleEntries3], List.chain'_singleton 1, by decide, by decide,
    (C6_segment_partition sampleEntries3 [1] (by simp [sampleEntries3])
      (List.chain'_singleton 1) (by decide) (by decide)).1⟩

/-- C7: a transcript with fewer than `2 * window_size` entries yields no topic
changes, whatever the similarity oracle computes; in particular a 9-entry
transcript at window size 5 yields `[]`, and the whole transcript becomes a
single segment starting at the first entry's timestamp. -/
theorem C7_short_transcript {α : Type} :
    (∀ (sim : List α → List α → Option ℚ) (entries : List (TranscriptEntry α))
        (window_size : ℕ) (threshold : ℚ),
      entries.length < window_size * 2 →
        detect_topic_changes sim entries window_size threshold = []) ∧
    (∀ (sim : List α → List α → Option ℚ) (entries : List (TranscriptEntry α))
        (threshold : ℚ),
      entries.length = 9 → (entries.map (·.text)).flatten ≠ [] →
        create_segments_with_topics entries
            (detect_topic_changes sim entries 5 threshold) =
          [⟨(entries.getD 0 default).start, (entries.map (·.text)).flatten⟩]) := by
  have h1 : ∀ (sim : List α → List α → Option ℚ) (entries : List (TranscriptEntry α))
      (window_size : ℕ) (threshold : ℚ),
      entries.length < window_size * 2 →
        detect_topic_changes sim entries window_size threshold = [] := by
    intro sim entries window_size threshold h
    unfold detect_topic_changes
    rw [if_pos h]
  refine ⟨h1, ?_⟩
  intro sim entries threshold hlen hne
  rw [h1 sim entries 5 threshold (by omega)]
  unfold create_segments_with_topics
  simp only [List.nil_append, segmentsGo]
  have hslice : pySlice entries 0 entries.length = entries := by
    unfold pySlice
    rw [List.drop_zero]
    exact List.take_of_length_le (by omega)
  rw [hslice]
  rw [if_neg (fun h => hne (List.isEmpty_iff.mp h))]

/-- Witness for `C7_short_transcript`: the nine-entry transcript with an
oracle that always fails. -/
theorem C7_short_transcript_witness :
    sampleEntries9.length = 9 ∧ (sampleEntries9.map (·.text)).flatten ≠ [] ∧
      create_segments_with_topics sampleEntries9
          (detect_topic_changes (fun _ _ => (none : Option ℚ)) sampleEntries9 5 (7/20)) =
        [⟨(sampleEntries9.getD 0 default).start, (sampleEntries9.map (·.text)).flatten⟩] :=
  ⟨by decide, by decide,
    (C7_short_transcript (α := ℕ)).2 (fun _ _ => none) sampleEntries9 (7/20)
      (by decide) (by decide)⟩
